import Mathlib

/-!
Shallow embedding of `csv_to_html_gallery.py`: a script that reads an
itch.io purchases CSV, groups records by the trimmed
(Game Name, Game Page Link) pair, and renders one HTML table row per
group between a fixed header and footer template.

Python `str` values are modelled by `String`; values coming out of a
`csv.DictReader` row dict may also be Python `None` (the `restval`
filled in when a data row is shorter than the header), modelled by
`PyVal`.  Operations that Python would crash on (`None.strip()`,
`unquote(None)`) are modelled in `Except String`.
-/

/-- A Python value stored in a `csv.DictReader` row dict: either a string
or `None` (the default `restval` used to pad short rows). -/
inductive PyVal where
  | str : String → PyVal
  | none : PyVal
deriving DecidableEq, Repr

/-- A CSV record as produced by `csv.DictReader`: a dict from column name
to value, modelled as an association list with distinct keys. -/
abbrev Record := List (String × PyVal)

/-- A group key: the trimmed (Game Name, Game Page Link) pair. -/
abbrev GroupKey := String × String

/-- Python `record.get(k, d)`: the stored value if the key is present
(even when that value is `None`), otherwise the default `d`. -/
def dictGet (r : Record) (k : String) (d : PyVal) : PyVal :=
  match r.find? (fun p => p.1 = k) with
  | Option.some p => p.2
  | Option.none => d

/-- Whitespace characters stripped by Python `str.strip()` (ASCII part). -/
def pyIsSpace (c : Char) : Bool :=
  c = ' ' || c = '\t' || c = '\n' || c = '\r' || c = '\x0b' || c = '\x0c'

/-- Python `str.strip()` on a character list. -/
def pyStripChars (l : List Char) : List Char :=
  ((l.dropWhile pyIsSpace).reverse.dropWhile pyIsSpace).reverse

/-- Python `str.strip()`. -/
def pyStrip (s : String) : String :=
  String.mk (pyStripChars s.data)

/-- Python `value.strip()` on a dict value: raises `AttributeError` when
the value is `None`. -/
def stripV : PyVal → Except String String
  | PyVal.str s => Except.ok (pyStrip s)
  | PyVal.none => Except.error "AttributeError: NoneType object has no attribute strip"

/-- Python `value or \"\"` for a dict value: `None` and `\"\"` both give `\"\"`. -/
def pyOrEmpty : PyVal → String
  | PyVal.str s => s
  | PyVal.none => ""

/-- Python `s or d` for strings: `d` when `s` is empty (falsy), else `s`. -/
def orDefault (s d : String) : String :=
  if s = "" then d else s

/-- One character of `html.escape(·, quote=True)`. -/
def escapeChar (c : Char) : String :=
  if c = '&' then "&amp;"
  else if c = '<' then "&lt;"
  else if c = '>' then "&gt;"
  else if c = '"' then "&quot;"
  else if c = '\'' then "&#x27;"
  else String.singleton c

/-- `html.escape(s, quote=True)`: the sequential `str.replace` chain in
CPython's `html.escape` replaces `&` first, and no replacement string
contains a character replaced later, so the chain acts character-wise. -/
def htmlEscape (s : String) : String :=
  String.join (s.data.map escapeChar)

/-- `safe_html` from the script: escape for HTML (on a plain string the
`value or \"\"` guard is the identity). -/
def safe_html (s : String) : String :=
  htmlEscape s

/-- `safe_text` from the script: strip text or return `N/A`.  No escaping. -/
def safe_text (v : PyVal) : String :=
  let txt := pyStrip (pyOrEmpty v)
  if txt = "" then "N/A" else txt

/-- Python `s.split(\",\")` on a character list: split on every comma;
the empty input yields one empty piece. -/
def splitOnComma : List Char → List (List Char)
  | [] => [[]]
  | c :: rest =>
    if c = ',' then [] :: splitOnComma rest
    else
      match splitOnComma rest with
      | p :: ps => (c :: p) :: ps
      | [] => [[c]]

/-- One clickable filter chip, as interpolated in `make_chips`. -/
def chipHtml (tag : String) : String :=
  "<a href=\"#\" class=\"filter-chip\">" ++ safe_html tag ++ "</a>"

/-- Python `\" \".join(pieces)`. -/
def joinSpace : List String → String
  | [] => ""
  | [x] => x
  | x :: xs => x ++ " " ++ joinSpace xs

/-- `make_chips` from the script: create clickable filter chips from
comma-separated tags, or `N/A` when nothing remains.  A `None` cell is
falsy in Python, so it takes the first `N/A` branch. -/
def make_chips (cell : PyVal) : String :=
  match cell with
  | PyVal.none => "N/A"
  | PyVal.str s =>
    if s = "" || pyStrip s = "" then "N/A"
    else
      let tags := ((splitOnComma s.data).map (fun p => pyStrip (String.mk p))).filter
        (fun t => t ≠ "")
      if tags = [] then "N/A"
      else joinSpace (tags.map chipHtml)

/-- Hexadecimal digit value, as accepted by percent-escapes. -/
def hexVal? (c : Char) : Option Nat :=
  if '0' ≤ c ∧ c ≤ '9' then Option.some (c.toNat - '0'.toNat)
  else if 'a' ≤ c ∧ c ≤ 'f' then Option.some (c.toNat - 'a'.toNat + 10)
  else if 'A' ≤ c ∧ c ≤ 'F' then Option.some (c.toNat - 'A'.toNat + 10)
  else Option.none

/-- `urllib.parse.unquote` on a character list: a `%` followed by two hex
digits decodes to the byte's code point, an invalid escape is kept
verbatim.  (CPython additionally UTF-8-decodes consecutive high bytes;
this model keeps each decoded byte as its own code point, which agrees
with CPython on ASCII escapes.) -/
def unquoteChars : List Char → List Char
  | '%' :: a :: b :: rest =>
    match hexVal? a, hexVal? b with
    | Option.some ha, Option.some hb => Char.ofNat (16 * ha + hb) :: unquoteChars rest
    | _, _ => '%' :: unquoteChars (a :: b :: rest)
  | c :: rest => c :: unquoteChars rest
  | [] => []

/-- `urllib.parse.unquote` on a string. -/
def pyUnquote (s : String) : String :=
  String.mk (unquoteChars s.data)

/-- The group key computed in `build_rows`:
`(record.get("Game Name", "").strip(), record.get("Game Page Link", "").strip())`.
Raises when a `None` dict value meets `.strip()`. -/
def recordKey (r : Record) : Except String GroupKey := do
  let n ← stripV (dictGet r "Game Name" (PyVal.str ""))
  let l ← stripV (dictGet r "Game Page Link" (PyVal.str ""))
  pure (n, l)

/-- `groups[key].append(record)` on a `defaultdict(list)` kept in
insertion order: append to the existing group, or create a new group at
the end. -/
def addToGroups (gs : List (GroupKey × List Record)) (k : GroupKey) (r : Record) :
    List (GroupKey × List Record) :=
  match gs with
  | [] => [(k, [r])]
  | (k', rs) :: rest =>
    if k' = k then (k', rs ++ [r]) :: rest else (k', rs) :: addToGroups rest k r

/-- The read-and-group loop of `build_rows`, carried out from an
accumulated group list `g`. -/
def readGroupsFrom (g : List (GroupKey × List Record)) :
    List Record → Except String (List (GroupKey × List Record))
  | [] => Except.ok g
  | r :: rs => do
    let k ← recordKey r
    readGroupsFrom (addToGroups g k r) rs

/-- The read-and-group loop of `build_rows` over an already parsed record
sequence. -/
def readGroups (records : List Record) : Except String (List (GroupKey × List Record)) :=
  readGroupsFrom [] records

/-- Python tuple `<=` on (name, link) string pairs: lexicographic,
comparing strings character-wise by code point (the order is stated on
the underlying character lists, which is exactly Python's string
comparison). -/
def keyLe (a b : GroupKey) : Prop :=
  a.1.data < b.1.data ∨ (a.1 = b.1 ∧ a.2.data ≤ b.2.data)

/-- Strict version of `keyLe`. -/
def keyLt (a b : GroupKey) : Prop :=
  a.1.data < b.1.data ∨ (a.1 = b.1 ∧ a.2.data < b.2.data)

instance : DecidableRel keyLe := fun a b => by
  unfold keyLe; infer_instance

instance : DecidableRel keyLt := fun a b => by
  unfold keyLt; infer_instance

/-- Ordering of group entries used by `sorted(groups.items())`: the dict
keys are distinct, so Python's tuple comparison never reaches the record
lists and the sort is by key alone. -/
def entryLe (a b : GroupKey × List Record) : Prop := keyLe a.1 b.1

instance : DecidableRel entryLe := fun a b => by
  unfold entryLe; infer_instance

/-- `sorted(groups.items())`: the dict has distinct keys, so any
comparison sort yields this uniquely determined key-sorted sequence. -/
def sortGroups (gs : List (GroupKey × List Record)) : List (GroupKey × List Record) :=
  List.insertionSort entryLe gs

/-- The seven `<td>` payloads computed for one group in `build_rows`. -/
structure RowCells where
  img : String
  title_cell : String
  author : String
  category : String
  genre : String
  tags : String
  price : String
deriving DecidableEq, Repr

/-- The `<div class=\"thumb-wrapper\">…` fragment for an existing thumbnail. -/
def imgHtml (url : String) : String :=
  "<div class=\"thumb-wrapper\">" ++
    "<img class=\"thumb\" src=\"" ++ url ++ "\">" ++
    "<img class=\"zoomed\" src=\"" ++ url ++ "\">" ++
    "</div>"

/-- The `\" (n)\"` title suffix appended when a group holds more than one
record. -/
def titleSuffix (count : Nat) : String :=
  if count > 1 then " (" ++ Nat.repr count ++ ")" else ""

/-- The collapsible `<details>` fragment: the script appends it whenever
the escaped description differs from the literal string `N/A`. -/
def detailsHtml (description : String) : String :=
  if description ≠ "N/A" then
    "<details style=\"margin-top:4px;\"><summary style=\"cursor:pointer;\">Description</summary>" ++
      "<div style=\"margin-top:6px; white-space:pre-wrap; font-size:0.9em; line-height:1.4;\">" ++
      description ++ "</div></details>"
  else ""

/-- The per-group body of `build_rows`: `first = records[0]` (groups are
never empty), the thumbnail is percent-decoded and checked against the
filesystem `fs`, and the seven cell strings are produced.  Raises when
the representative's `Thumbnail` value is `None` (as `unquote(None)`
does). -/
def groupCells (fs : String → Bool) (game_name page_link : String) (records : List Record) :
    Except String RowCells := do
  let count := records.length
  let first := records.headD []
  let thumbRaw ← match dictGet first "Thumbnail" (PyVal.str "") with
    | PyVal.str s => Except.ok s
    | PyVal.none => Except.error "TypeError: unquote expected str, got None"
  let thumb_url := pyUnquote thumbRaw
  let img := if thumb_url ≠ "" ∧ fs thumb_url then imgHtml thumb_url else "N/A"
  let title := safe_html (orDefault game_name "N/A")
  let suffix := titleSuffix count
  let link := safe_html (orDefault page_link "#")
  let description := safe_html (pyOrEmpty (dictGet first "Description" (PyVal.str "")))
  let title_cell :=
    "<a href=\"" ++ link ++ "\" target=\"_blank\">" ++ title ++ suffix ++ "</a>" ++
      detailsHtml description
  pure (RowCells.mk img title_cell
    (safe_html (pyOrEmpty (dictGet first "Author" (PyVal.str ""))))
    (make_chips (dictGet first "Category" (PyVal.str "")))
    (make_chips (dictGet first "Genre" (PyVal.str "")))
    (make_chips (dictGet first "Tags" (PyVal.str "")))
    (safe_text (dictGet first "Price" (PyVal.str ""))))

/-- The `row_html` f-string of `build_rows`, after its `.rstrip()`. -/
def rowString (c : RowCells) : String :=
  "\n        <tr>\n          <td>" ++ c.img ++
    "</td>\n          <td>" ++ c.title_cell ++
    "</td>\n          <td>" ++ c.author ++
    "</td>\n          <td>" ++ c.category ++
    "</td>\n          <td>" ++ c.genre ++
    "</td>\n          <td>" ++ c.tags ++
    "</td>\n          <td>" ++ c.price ++
    "</td>\n        </tr>"

/-- The rendered row for one sorted group entry. -/
def renderEntry (fs : String → Bool) (e : GroupKey × List Record) : Except String String := do
  let c ← groupCells fs e.1.1 e.1.2 e.2
  pure (rowString c)

/-- The row-building loop of `build_rows`: render each sorted group entry
in order. -/
def renderAll (fs : String → Bool) : List (GroupKey × List Record) → Except String (List String)
  | [] => Except.ok []
  | e :: es => do
    let row ← renderEntry fs e
    let rest ← renderAll fs es
    pure (row :: rest)

/-- The list of rendered rows, in the order `build_rows` emits them. -/
def buildRowList (fs : String → Bool) (records : List Record) : Except String (List String) := do
  let gs ← readGroups records
  renderAll fs (sortGroups gs)

/-- `build_rows` over a parsed record sequence: the newline-joined rows. -/
def build_rows (fs : String → Bool) (records : List Record) : Except String String := do
  let rows ← buildRowList fs records
  pure ("\n".intercalate rows)

/-- `csv.DictReader`'s conversion of one data row: zip the header with
the row's fields; fields missing from a short row become `None`
(the default `restval`). -/
def dictReaderRecord : List String → List String → Record
  | [], _ => []
  | h :: hs, [] => (h, PyVal.none) :: dictReaderRecord hs []
  | h :: hs, v :: vs => (h, PyVal.str v) :: dictReaderRecord hs vs

/-- The group keys of all records, in input order (the loop raises on the
first record whose key computation raises). -/
def keysList : List Record → Except String (List GroupKey)
  | [] => Except.ok []
  | r :: rs => do
    let k ← recordKey r
    let ks ← keysList rs
    pure (k :: ks)

/-- The keys of a group list, in insertion order. -/
def keysOf (gs : List (GroupKey × List Record)) : List GroupKey :=
  gs.map Prod.fst

/-- The record list stored for key `k` (first entry wins), or `[]` when
`k` has no group. -/
def findGroup : List (GroupKey × List Record) → GroupKey → List Record
  | [], _ => []
  | e :: es, k => if e.1 = k then e.2 else findGroup es k

/-- The records of `rs` whose group key computes to `k`. -/
def filterKey (rs : List Record) (k : GroupKey) : List Record :=
  rs.filter (fun r => (recordKey r).toOption = Option.some k)

/-- What one rendered row can depend on besides the filesystem: the group
key, the representative (first) record, and the record count. -/
def entrySummary (e : GroupKey × List Record) : GroupKey × Record × Nat :=
  (e.1, (e.2.headD [], e.2.length))

/-- The summaries of all groups, in insertion order. -/
def summaryOf (gs : List (GroupKey × List Record)) : List (GroupKey × Record × Nat) :=
  gs.map entrySummary

/-- Increment the count of the first summary entry carrying key `k`. -/
def bumpFirst : List (GroupKey × Record × Nat) → GroupKey → List (GroupKey × Record × Nat)
  | [], _ => []
  | t :: ts, k => if t.1 = k then (t.1, (t.2.1, t.2.2 + 1)) :: ts else t :: bumpFirst ts k

/-- Ordering of group summaries by key. -/
def sumLe (x y : GroupKey × Record × Nat) : Prop := keyLe x.1 y.1

instance : DecidableRel sumLe := fun a b => by
  unfold sumLe; infer_instance

/-- Strict key order on group entries (used to show sorted sequences are
unique). -/
def entryLt (a b : GroupKey × List Record) : Prop := keyLt a.1 b.1

instance : DecidableRel entryLt := fun a b => by
  unfold entryLt; infer_instance

/-- Boolean substring test: does `sub` occur contiguously in `s`? -/
def containsSub (s sub : String) : Bool :=
  s.data.tails.any (fun t => sub.data.isPrefixOf t)

/-- The fixed `HTML_HEADER` template of the script, after its f-string
interpolation of the stylesheet URL. -/
def HTML_HEADER : String :=
  "<!DOCTYPE html>\n<html lang=\"en\">\n<head>\n  <meta charset=\"UTF-8\">\n  <title>Itch.io Game Library</title>\n  <link rel=\"stylesheet\" href=\"https://cdn.datatables.net/1.13.6/css/jquery.dataTables.min.css\">\n  <style>\n    /* --- page & table basics --- */\n    body \x7b font-family: sans-serif; padding: 20px; background: #fefefe; \x7d\n    table \x7b width: 100%; border-collapse: collapse; table-layout: auto; \x7d\n    th, td \x7b vertical-align: top; padding: 12px 10px; \x7d\n\n    /* --- zebra striping override & hover --- */\n    #games tbody tr:hover \x7b background-color: #eef6fb !important; \x7d\n\n    /* --- thumbnails & zoom --- */\n    .thumb-wrapper \x7b position: relative; display: inline-block; \x7d\n    img.thumb \x7b\n      width: 160px; height: auto; border-radius: 10px;\n      object-fit: cover; box-shadow: 0 0 5px rgba(0,0,0,0.1);\n      transition: transform 0.2s, box-shadow 0.2s; z-index:1;\n    \x7d\n    img.thumb:hover \x7b\n      transform: scale(1.05); box-shadow: 0 0 8px rgba(0,0,0,0.2);\n    \x7d\n    .thumb-wrapper:hover .zoomed \x7b display: block; \x7d\n    .zoomed \x7b\n      display: none; position: fixed; top:50%; left:50%;\n      transform: translate(-50%,-50%) scale(2.25);\n      z-index:1000; border:5px solid white;\n      box-shadow:0 0 15px rgba(0,0,0,0.5);\n      background:white; max-width:90vw; max-height:90vh;\n    \x7d\n\n    /* --- filter chips --- */\n    .filter-chip \x7b\n      background: #eee; padding:2px 6px; margin:2px;\n      border-radius:5px; text-decoration:none; color:#333;\n      font-size:0.9em; cursor:pointer;\n    \x7d\n    .filter-chip:hover \x7b background:#ccc; \x7d\n\n    /* --- clear button --- */\n    #clear-filter \x7b margin-bottom:10px; display:none; \x7d\n  </style>\n</head>\n<body>\n  <h1>🎮 My Itch.io Game Library</h1>\n  <button id=\"clear-filter\">Clear Filter</button>\n  <table id=\"games\" class=\"display\">\n    <thead>\n      <tr>\n        <th>Cover</th><th>Title</th><th>Author</th>\n        <th>Category</th><th>Genre</th><th>Tags</th><th>Price</th>\n      </tr>\n    </thead>\n    <tbody>\n"

/-- The fixed `HTML_FOOTER` template of the script, after its f-string
interpolation of the two script URLs. -/
def HTML_FOOTER : String :=
  "\n    </tbody>\n  </table>\n  <script src=\"https://code.jquery.com/jquery-3.7.1.min.js\"></script>\n  <script src=\"https://cdn.datatables.net/1.13.6/js/jquery.dataTables.min.js\"></script>\n  <script>\n  $(document).ready(function()\x7b\n    const table = $('#games').DataTable(\x7b\n      orderCellsTop: true,\n      fixedHeader: true,\n      pageLength: 25,\n      stripeClasses: [],\n      rowCallback: function(row,data,index) \x7b\n        const bg = index % 2 === 0 ? '#ffffff' : '#f9f9f9';\n        $(row).css('background-color', bg);\n      \x7d,\n      columnDefs: [\x7b\n        targets: 6,\n        render: function(data,type) \x7b\n          if (type==='sort' || type==='type') \x7b\n            const cleaned = data.replace(/<[^>]+>/g,'').replace(/[^\\d.]/g,'');\n            return cleaned ? parseFloat(cleaned) : Infinity;\n          \x7d\n          return data;\n        \x7d\n      \x7d]\n    \x7d);\n\n    // Add filter row\n    $('#games thead tr').clone(false).appendTo('#games thead');\n    $('#games thead tr:eq(1) th').each(function(i)\x7b\n      $(this).removeClass('sorting sorting_asc sorting_desc');\n      if (i === 0) \x7b\n        $(this).html('');\n      \x7d\n      else if (i === 3) \x7b\n        // Category → dropdown\n        const options = [\n          \"All\", \"Assets\", \"Book\", \"Comic\",\n          \"N/A\", \"Other\", \"Physical game\",\n          \"Soundtrack\", \"Tool\"\n        ];\n        const select = $('<select style=\"width:100%\"></select>')\n          .append(options.map(o => `<option>$\x7bo\x7d</option>`).join(''))\n          .on('change', function()\x7b\n            const val = this.value === \"All\" ? \"\" : this.value;\n            if (table.column(i).search() !== val) \x7b\n              table.column(i).search(val).draw();\n            \x7d\n          \x7d).on('click', e => e.stopPropagation());\n        $(this).html(select);\n      \x7d\n      else if (i === 6) \x7b\n        $(this).html('<label><input type=\"checkbox\" id=\"paid-filter\"/> Paid?</label>')\n               .find('label').on('click', e => e.stopPropagation());\n      \x7d\n      else \x7b\n        const input = $('<input>', \x7b\n          type: 'text', placeholder: 'Search...', style: 'width:100%'\n        \x7d);\n        $(this).html(input).find('input')\n          .on('keyup change', function() \x7b\n            if (table.column(i).search() !== this.value) \x7b\n              table.column(i).search(this.value).draw();\n            \x7d\n          \x7d).on('click', e => e.stopPropagation());\n      \x7d\n    \x7d);\n\n    // Chip click → filter\n    $('#games tbody').on('click', '.filter-chip', function(e)\x7b\n      e.preventDefault();\n      const term = $(this).text().trim();\n      const col  = $(this).closest('td').index();\n      const inp  = $('#games thead tr:eq(1) th').eq(col).find('input, select');\n      if (inp.length) \x7b\n        inp.val(term).trigger('change');\n        $('#clear-filter').show();\n      \x7d\n    \x7d);\n\n    // Paid toggle\n    $('#games thead').on('change','#paid-filter',function()\x7b\n      if (this.checked) \x7b\n        table.column(6).search('^(?!N/A$).*$',true,false).draw();\n      \x7d else \x7b\n        table.column(6).search('').draw();\n      \x7d\n      $('#clear-filter').show();\n    \x7d);\n\n    // Clear filters\n    $('#clear-filter').on('click',function()\x7b\n      $('#games thead tr:eq(1) th input[type=text]').val('');\n      $('#games thead tr:eq(1) th select').val('All');\n      $('#paid-filter').prop('checked',false).trigger('change');\n      table.columns().search('').draw();\n      $(this).hide();\n    \x7d);\n  \x7d);\n  </script>\n</body>\n</html>\n"

/-- The outcome of one run of `main`: either the content written to the
output file, or a failure raised before anything was written. -/
inductive RunResult where
  | written : String → RunResult
  | failed : String → RunResult
deriving DecidableEq

/-- `main`: `html_content = HTML_HEADER + build_rows(CSV_PATH) + HTML_FOOTER`
is fully computed before `OUTPUT_PATH.write_text` runs, so a read/parse
error propagates before any write.  `input` is the result of opening and
parsing the CSV (an `InputError` or the record list); `fs` answers the
thumbnail existence checks. -/
def mainRun (fs : String → Bool) (input : Except String (List Record)) : RunResult :=
  match (do
      let rs ← input
      build_rows fs rs : Except String String) with
  | Except.ok body => RunResult.written (HTML_HEADER ++ body ++ HTML_FOOTER)
  | Except.error e => RunResult.failed e

/-- The output sink after one run, starting from prior contents `sink`:
`main` overwrites the file on success and leaves it untouched on
failure. -/
def runSink (fs : String → Bool) (input : Except String (List Record))
    (sink : Option String) : Option String :=
  match mainRun fs input with
  | RunResult.written c => Option.some c
  | RunResult.failed _ => sink

/-! ### Basic string lemmas -/

theorem data_append_eq (a b : String) : (a ++ b).data = a.data ++ b.data := by
  cases a; cases b; rfl

theorem append_ne_empty_left (a b : String) (h : a ≠ "") : a ++ b ≠ "" := by
  intro hab
  apply h
  have hd : (a ++ b).data = ([] : List Char) := by rw [hab]
  rw [data_append_eq] at hd
  rcases List.append_eq_nil.mp hd with ⟨h1, _⟩
  cases a
  simp only [String.data] at h1
  simp [h1]

theorem join_data (l : List String) : (String.join l).data = (l.map String.data).flatten := by
  suffices haux : ∀ (l : List String) (a : String),
      (l.foldl (fun r s => r ++ s) a).data = a.data ++ (l.map String.data).flatten by
    simp only [String.join, haux l "", String.data, List.nil_append]
  intro l
  induction l with
  | nil => intro a; simp
  | cons x xs ih =>
    intro a
    simp only [List.foldl_cons, List.map_cons, List.flatten_cons]
    rw [ih, data_append_eq, List.append_assoc]

theorem safe_text_ne_empty (v : PyVal) : safe_text v ≠ "" := by
  unfold safe_text
  by_cases h : pyStrip (pyOrEmpty v) = "" <;> simp [h]

theorem chipHtml_ne_empty (t : String) : chipHtml t ≠ "" := by
  unfold chipHtml
  apply append_ne_empty_left
  apply append_ne_empty_left
  decide

theorem joinSpace_cons_ne_empty (x : String) (xs : List String) (hx : x ≠ "") :
    joinSpace (x :: xs) ≠ "" := by
  cases xs with
  | nil => simpa [joinSpace] using hx
  | cons y ys =>
    show x ++ " " ++ joinSpace (y :: ys) ≠ ""
    exact append_ne_empty_left _ _ (append_ne_empty_left _ _ hx)

theorem make_chips_ne_empty (v : PyVal) : make_chips v ≠ "" := by
  unfold make_chips
  cases v with
  | none => decide
  | str s =>
    by_cases h1 : s = "" || pyStrip s = ""
    · simp [h1]
    · simp only [h1, Bool.false_eq_true, if_false]
      set tags := ((splitOnComma s.data).map (fun p => pyStrip (String.mk p))).filter
        (fun t => t ≠ "") with htags
      by_cases h2 : tags = []
      · simp [h2]
      · simp only [h2, if_false]
        cases hc : tags with
        | nil => exact absurd hc h2
        | cons t ts =>
          simp only [List.map_cons]
          exact joinSpace_cons_ne_empty _ _ (chipHtml_ne_empty t)

/-! ### Key-order instances -/

theorem string_data_inj {s t : String} (h : s.data = t.data) : s = t := by
  cases s
  cases t
  exact congrArg String.mk h

theorem keyLe_total (a b : GroupKey) : keyLe a b ∨ keyLe b a := by
  unfold keyLe
  rcases lt_trichotomy a.1.data b.1.data with h | h | h
  · exact Or.inl (Or.inl h)
  · have he : a.1 = b.1 := string_data_inj h
    rcases le_total a.2.data b.2.data with h2 | h2
    · exact Or.inl (Or.inr ⟨he, h2⟩)
    · exact Or.inr (Or.inr ⟨he.symm, h2⟩)
  · exact Or.inr (Or.inl h)

theorem keyLe_trans {a b c : GroupKey} (h1 : keyLe a b) (h2 : keyLe b c) : keyLe a c := by
  unfold keyLe at *
  rcases h1 with h1 | ⟨h1e, h1l⟩
  · rcases h2 with h2 | ⟨h2e, _⟩
    · exact Or.inl (h1.trans h2)
    · exact Or.inl (congrArg String.data h2e ▸ h1)
  · rcases h2 with h2 | ⟨h2e, h2l⟩
    · exact Or.inl (congrArg String.data h1e.symm ▸ h2)
    · exact Or.inr ⟨h1e.trans h2e, h1l.trans h2l⟩

theorem keyLt_asymm {a b : GroupKey} (h1 : keyLt a b) (h2 : keyLt b a) : False := by
  unfold keyLt at *
  rcases h1 with h1 | ⟨h1e, h1l⟩
  · rcases h2 with h2 | ⟨h2e, _⟩
    · exact absurd (h1.trans h2) (lt_irrefl _)
    · exact absurd (congrArg String.data h2e ▸ h1) (lt_irrefl _)
  · rcases h2 with h2 | ⟨_, h2l⟩
    · exact absurd (congrArg String.data h1e ▸ h2) (lt_irrefl _)
    · exact absurd (h1l.trans h2l) (lt_irrefl _)

theorem keyLe_ne_keyLt {a b : GroupKey} (h : keyLe a b) (hne : a ≠ b) : keyLt a b := by
  unfold keyLe at h
  unfold keyLt
  rcases h with h | ⟨he, hl⟩
  · exact Or.inl h
  · refine Or.inr ⟨he, lt_of_le_of_ne hl ?_⟩
    intro h2
    exact hne (Prod.ext he (string_data_inj h2))

instance : IsTotal (GroupKey × List Record) entryLe :=
  ⟨fun a b => keyLe_total a.1 b.1⟩

instance : IsTrans (GroupKey × List Record) entryLe :=
  ⟨fun _ _ _ h1 h2 => keyLe_trans h1 h2⟩

instance : IsAntisymm (GroupKey × List Record) entryLt :=
  ⟨fun _ _ h1 h2 => absurd h2 (fun h => keyLt_asymm h1 h)⟩

instance : IsAntisymm GroupKey keyLt :=
  ⟨fun _ _ h1 h2 => absurd h2 (fun h => keyLt_asymm h1 h)⟩

/-! ### Escaping lemmas -/

theorem escapeChar_no_specials (c' c : Char) (h : c ∈ (escapeChar c').data) :
    c ≠ '<' ∧ c ≠ '>' ∧ c ≠ '"' ∧ c ≠ '\'' := by
  unfold escapeChar at h
  split_ifs at h with h1 h2 h3 h4 h5
  · have : c ∈ ['&', 'a', 'm', 'p', ';'] := h
    fin_cases this <;> decide
  · have : c ∈ ['&', 'l', 't', ';'] := h
    fin_cases this <;> decide
  · have : c ∈ ['&', 'g', 't', ';'] := h
    fin_cases this <;> decide
  · have : c ∈ ['&', 'q', 'u', 'o', 't', ';'] := h
    fin_cases this <;> decide
  · have : c ∈ ['&', '#', 'x', '2', '7', ';'] := h
    fin_cases this <;> decide
  · have hc : c = c' := by
      have : c ∈ [c'] := h
      simpa using this
    subst hc
    exact ⟨h2, h3, h4, h5⟩

theorem htmlEscape_no_specials (s : String) (c : Char) (h : c ∈ (htmlEscape s).data) :
    c ≠ '<' ∧ c ≠ '>' ∧ c ≠ '"' ∧ c ≠ '\'' := by
  unfold htmlEscape at h
  rw [join_data, List.map_map] at h
  rcases List.mem_flatten.mp h with ⟨piece, hpiece, hc⟩
  rcases List.mem_map.mp hpiece with ⟨c', _, heq⟩
  subst heq
  exact escapeChar_no_specials c' c hc

/-! ### Strip and split lemmas -/

theorem pyStripChars_all_space {l : List Char} (h : ∀ c ∈ l, pyIsSpace c) :
    pyStripChars l = [] := by
  unfold pyStripChars
  have h1 : l.dropWhile pyIsSpace = [] := List.dropWhile_eq_nil_iff.mpr h
  simp [h1]

theorem splitOnComma_ne_nil (l : List Char) : splitOnComma l ≠ [] := by
  induction l with
  | nil => simp [splitOnComma]
  | cons c rest ih =>
    unfold splitOnComma
    by_cases hc : c = ','
    · simp [hc]
    · simp only [hc, if_false]
      cases hs : splitOnComma rest with
      | nil => exact absurd hs ih
      | cons p ps => simp

theorem mem_splitOnComma {l : List Char} {p : List Char} (hp : p ∈ splitOnComma l)
    {c : Char} (hc : c ∈ p) : c ∈ l ∧ c ≠ ',' := by
  induction l generalizing p with
  | nil =>
    simp only [splitOnComma, List.mem_singleton] at hp
    subst hp
    simp at hc
  | cons c0 rest ih =>
    unfold splitOnComma at hp
    by_cases h0 : c0 = ','
    · simp only [h0, if_true] at hp
      rcases List.mem_cons.mp hp with h | h
      · subst h; simp at hc
      · rcases ih h hc with ⟨h1, h2⟩
        exact ⟨List.mem_cons_of_mem _ h1, h2⟩
    · simp only [h0, if_false] at hp
      cases hs : splitOnComma rest with
      | nil => exact absurd hs (splitOnComma_ne_nil rest)
      | cons p0 ps =>
        rw [hs] at hp
        rcases List.mem_cons.mp hp with h | h
        · subst h
          rcases List.mem_cons.mp hc with h | h
          · subst h
            exact ⟨List.mem_cons_self _ _, h0⟩
          · rcases ih (hs ▸ List.mem_cons_self p0 ps) h with ⟨h1, h2⟩
            exact ⟨List.mem_cons_of_mem _ h1, h2⟩
        · rcases ih (hs ▸ List.mem_cons_of_mem p0 h) hc with ⟨h1, h2⟩
          exact ⟨List.mem_cons_of_mem _ h1, h2⟩

theorem make_chips_space_comma {s : String} (h : ∀ c ∈ s.data, pyIsSpace c ∨ c = ',') :
    make_chips (PyVal.str s) = "N/A" := by
  unfold make_chips
  by_cases h1 : s = "" || pyStrip s = ""
  · simp [h1]
  · simp only [h1, Bool.false_eq_true, if_false]
    have htags : ((splitOnComma s.data).map (fun p => pyStrip (String.mk p))).filter
        (fun t => t ≠ "") = [] := by
      rw [List.filter_eq_nil_iff]
      intro t ht
      rcases List.mem_map.mp ht with ⟨p, hp, hpt⟩
      have hall : ∀ c ∈ p, pyIsSpace c := by
        intro c hc
        rcases mem_splitOnComma hp hc with ⟨hmem, hne⟩
        rcases h c hmem with hsp | hcomma
        · exact hsp
        · exact absurd hcomma hne
      have hstr : pyStrip (String.mk p) = "" := by
        unfold pyStrip
        simp only [String.data]
        rw [pyStripChars_all_space hall]
      subst hpt
      simp [hstr]
    rw [if_pos htags]

/-! ### Grouping lemmas -/

theorem addToGroups_nonempty {gs : List (GroupKey × List Record)} {k : GroupKey} {r : Record}
    (h : ∀ e ∈ gs, e.2 ≠ []) : ∀ e ∈ addToGroups gs k r, e.2 ≠ [] := by
  induction gs with
  | nil =>
    intro e he
    simp only [addToGroups, List.mem_singleton] at he
    subst he
    simp
  | cons e0 es ih =>
    intro e he
    obtain ⟨k0, rs0⟩ := e0
    unfold addToGroups at he
    by_cases hk : k0 = k
    · simp only [hk, if_true] at he
      rcases List.mem_cons.mp he with h1 | h1
      · subst h1; simp
      · exact h e (List.mem_cons_of_mem _ h1)
    · simp only [hk, if_false] at he
      rcases List.mem_cons.mp he with h1 | h1
      · subst h1
        exact h (k0, rs0) (List.mem_cons_self _ _)
      · exact ih (fun e' he' => h e' (List.mem_cons_of_mem _ he')) e h1

theorem keysOf_addToGroups (gs : List (GroupKey × List Record)) (k : GroupKey) (r : Record) :
    keysOf (addToGroups gs k r) = if k ∈ keysOf gs then keysOf gs else keysOf gs ++ [k] := by
  induction gs with
  | nil => simp [addToGroups, keysOf]
  | cons e0 es ih =>
    obtain ⟨k0, rs0⟩ := e0
    unfold addToGroups
    by_cases hk : k0 = k
    · subst hk
      simp [keysOf]
    · simp only [hk, if_false]
      by_cases h2 : k ∈ keysOf es
      · have hmem2 : k ∈ keysOf ((k0, rs0) :: es) := by
          simp only [keysOf, List.map_cons, List.mem_cons]
          exact Or.inr h2
        rw [if_pos hmem2]
        show (k0, rs0).1 :: keysOf (addToGroups es k r) = (k0, rs0).1 :: keysOf es
        rw [show keysOf (addToGroups es k r) = keysOf es from by rw [ih]; simp [h2]]
      · have hmem2 : k ∉ keysOf ((k0, rs0) :: es) := by
          simp only [keysOf, List.map_cons, List.mem_cons]
          rintro (h3 | h3)
          · exact hk h3.symm
          · exact h2 h3
        rw [if_neg hmem2]
        show (k0, rs0).1 :: keysOf (addToGroups es k r) = ((k0, rs0).1 :: keysOf es) ++ [k]
        rw [show keysOf (addToGroups es k r) = keysOf es ++ [k] from by rw [ih]; simp [h2]]
        simp

theorem mem_keysOf_addToGroups {gs : List (GroupKey × List Record)} {k k' : GroupKey} {r : Record} :
    k' ∈ keysOf (addToGroups gs k r) ↔ k' ∈ keysOf gs ∨ k' = k := by
  rw [keysOf_addToGroups]
  by_cases h : k ∈ keysOf gs
  · simp only [h, if_true]
    constructor
    · exact fun h1 => Or.inl h1
    · rintro (h1 | h1)
      · exact h1
      · exact h1 ▸ h
  · simp [h]

theorem nodup_keysOf_addToGroups {gs : List (GroupKey × List Record)} {k : GroupKey} {r : Record}
    (h : (keysOf gs).Nodup) : (keysOf (addToGroups gs k r)).Nodup := by
  rw [keysOf_addToGroups]
  by_cases hk : k ∈ keysOf gs
  · simp [hk, h]
  · simp only [hk, if_false]
    rw [List.nodup_append]
    exact ⟨h, List.nodup_singleton k, by simp [hk]⟩

theorem findGroup_addToGroups_self (gs : List (GroupKey × List Record)) (k : GroupKey)
    (r : Record) : findGroup (addToGroups gs k r) k = findGroup gs k ++ [r] := by
  induction gs with
  | nil => simp [addToGroups, findGroup]
  | cons e0 es ih =>
    obtain ⟨k0, rs0⟩ := e0
    unfold addToGroups
    by_cases hk : k0 = k
    · subst hk
      simp [findGroup]
    · simp only [hk, if_false]
      unfold findGroup
      simp only [hk, if_false]
      exact ih

theorem findGroup_addToGroups_other {k k' : GroupKey} (h : k' ≠ k)
    (gs : List (GroupKey × List Record)) (r : Record) :
    findGroup (addToGroups gs k r) k' = findGroup gs k' := by
  have hne : k ≠ k' := Ne.symm h
  induction gs with
  | nil => simp [addToGroups, findGroup, hne]
  | cons e0 es ih =>
    obtain ⟨k0, rs0⟩ := e0
    unfold addToGroups
    by_cases hk : k0 = k
    · subst hk
      simp [findGroup, hne]
    · simp only [hk, if_false]
      unfold findGroup
      by_cases h0 : k0 = k'
      · simp [h0]
      · simp only [h0, if_false]
        exact ih

theorem findGroup_of_mem {gs : List (GroupKey × List Record)} {e : GroupKey × List Record}
    (hnd : (keysOf gs).Nodup) (he : e ∈ gs) : findGroup gs e.1 = e.2 := by
  induction gs with
  | nil => simp at he
  | cons e0 es ih =>
    rcases List.mem_cons.mp he with h1 | h1
    · subst h1
      simp [findGroup]
    · have hne : e0.1 ≠ e.1 := by
        intro hcontra
        have : e.1 ∈ keysOf es := List.mem_map_of_mem Prod.fst h1
        rw [keysOf, List.map_cons, List.nodup_cons] at hnd
        exact hnd.1 (hcontra ▸ this)
      unfold findGroup
      simp only [hne, if_false]
      exact ih (by rw [keysOf, List.map_cons, List.nodup_cons] at hnd; exact hnd.2) h1

/-! ### Fold lemmas for the grouping loop -/

theorem readGroupsFrom_ok_cons {g : List (GroupKey × List Record)} {r : Record}
    {rs : List Record} {gs : List (GroupKey × List Record)}
    (h : readGroupsFrom g (r :: rs) = Except.ok gs) :
    ∃ k, recordKey r = Except.ok k ∧ readGroupsFrom (addToGroups g k r) rs = Except.ok gs := by
  cases hk : recordKey r with
  | ok k =>
    refine ⟨k, rfl, ?_⟩
    unfold readGroupsFrom at h
    rw [hk] at h
    exact h
  | error e =>
    unfold readGroupsFrom at h
    rw [hk] at h
    simp only [bind, Except.bind] at h
    exact Except.noConfusion h

theorem readGroupsFrom_cons_ok {g : List (GroupKey × List Record)} {r : Record}
    {rs : List Record} {k : GroupKey} (hk : recordKey r = Except.ok k) :
    readGroupsFrom g (r :: rs) = readGroupsFrom (addToGroups g k r) rs := by
  rw [readGroupsFrom, hk]
  rfl

theorem readGroupsFrom_nonempty {rs : List Record} :
    ∀ {g gs : List (GroupKey × List Record)}, (∀ e ∈ g, e.2 ≠ []) →
      readGroupsFrom g rs = Except.ok gs → ∀ e ∈ gs, e.2 ≠ [] := by
  induction rs with
  | nil =>
    intro g gs hg h
    unfold readGroupsFrom at h
    injection h with h
    subst h
    exact hg
  | cons r rs ih =>
    intro g gs hg h
    obtain ⟨k, _, h2⟩ := readGroupsFrom_ok_cons h
    exact ih (addToGroups_nonempty hg) h2

theorem readGroupsFrom_nodup {rs : List Record} :
    ∀ {g gs : List (GroupKey × List Record)}, (keysOf g).Nodup →
      readGroupsFrom g rs = Except.ok gs → (keysOf gs).Nodup := by
  induction rs with
  | nil =>
    intro g gs hg h
    unfold readGroupsFrom at h
    injection h with h
    subst h
    exact hg
  | cons r rs ih =>
    intro g gs hg h
    obtain ⟨k, _, h2⟩ := readGroupsFrom_ok_cons h
    exact ih (nodup_keysOf_addToGroups hg) h2

theorem filterKey_cons (r : Record) (rs : List Record) (k : GroupKey) :
    filterKey (r :: rs) k =
      if (recordKey r).toOption = Option.some k then r :: filterKey rs k else filterKey rs k := by
  unfold filterKey
  rw [List.filter_cons]
  by_cases h : (recordKey r).toOption = Option.some k <;> simp [h]

theorem readGroupsFrom_find {rs : List Record} :
    ∀ {g gs : List (GroupKey × List Record)}, readGroupsFrom g rs = Except.ok gs →
      ∀ k, findGroup gs k = findGroup g k ++ filterKey rs k := by
  induction rs with
  | nil =>
    intro g gs h k
    unfold readGroupsFrom at h
    injection h with h
    subst h
    simp [filterKey]
  | cons r rs ih =>
    intro g gs h k
    obtain ⟨k0, hk0, h2⟩ := readGroupsFrom_ok_cons h
    rw [filterKey_cons]
    by_cases hkk : k0 = k
    · subst hkk
      have hpred : (recordKey r).toOption = Option.some k0 := by rw [hk0]; rfl
      rw [if_pos hpred, ih h2 k0, findGroup_addToGroups_self]
      simp
    · have hpred : ¬((recordKey r).toOption = Option.some k) := by
        rw [hk0]
        simp only [Except.toOption, Option.some.injEq]
        exact hkk
      rw [if_neg hpred, ih h2 k, findGroup_addToGroups_other (fun he => hkk he.symm)]

theorem readGroupsFrom_mem_keys {rs : List Record} :
    ∀ {g gs : List (GroupKey × List Record)}, readGroupsFrom g rs = Except.ok gs →
      ∀ k, k ∈ keysOf gs ↔
        (k ∈ keysOf g ∨ ∃ r ∈ rs, (recordKey r).toOption = Option.some k) := by
  induction rs with
  | nil =>
    intro g gs h k
    unfold readGroupsFrom at h
    injection h with h
    subst h
    simp
  | cons r rs ih =>
    intro g gs h k
    obtain ⟨k0, hk0, h2⟩ := readGroupsFrom_ok_cons h
    rw [ih h2 k]
    rw [mem_keysOf_addToGroups]
    constructor
    · rintro ((hh | hh) | hh)
      · exact Or.inl hh
      · refine Or.inr ⟨r, List.mem_cons_self _ _, ?_⟩
        rw [hk0, hh]
        rfl
      · obtain ⟨r', hr', hkr'⟩ := hh
        exact Or.inr ⟨r', List.mem_cons_of_mem _ hr', hkr'⟩
    · rintro (hh | ⟨r', hr', hkr'⟩)
      · exact Or.inl (Or.inl hh)
      · rcases List.mem_cons.mp hr' with h3 | h3
        · subst h3
          rw [hk0] at hkr'
          simp only [Except.toOption, Option.some.injEq] at hkr'
          exact Or.inl (Or.inr hkr'.symm)
        · exact Or.inr ⟨r', h3, hkr'⟩

/-! ### Key-list lemmas -/

theorem keysList_ok_cons {r : Record} {rs : List Record} {ks : List GroupKey}
    (h : keysList (r :: rs) = Except.ok ks) :
    ∃ k ks', recordKey r = Except.ok k ∧ keysList rs = Except.ok ks' ∧ ks = k :: ks' := by
  cases hk : recordKey r with
  | ok k =>
    cases hks : keysList rs with
    | ok ks' =>
      refine ⟨k, ks', rfl, rfl, ?_⟩
      unfold keysList at h
      rw [hk, hks] at h
      simp only [bind, Except.bind, pure, Except.pure] at h
      injection h with h
      exact h.symm
    | error e =>
      unfold keysList at h
      rw [hk, hks] at h
      simp only [bind, Except.bind] at h
      exact Except.noConfusion h
  | error e =>
    unfold keysList at h
    rw [hk] at h
    simp only [bind, Except.bind] at h
    exact Except.noConfusion h

theorem keysList_mem {rs : List Record} :
    ∀ {ks : List GroupKey}, keysList rs = Except.ok ks →
      ∀ k, k ∈ ks ↔ ∃ r ∈ rs, (recordKey r).toOption = Option.some k := by
  induction rs with
  | nil =>
    intro ks h k
    unfold keysList at h
    injection h with h
    subst h
    simp
  | cons r rs ih =>
    intro ks h k
    obtain ⟨k0, ks', hk0, hks', hcons⟩ := keysList_ok_cons h
    subst hcons
    rw [List.mem_cons, ih hks' k]
    constructor
    · rintro (hh | ⟨r', hr', hkr'⟩)
      · refine ⟨r, List.mem_cons_self _ _, ?_⟩
        rw [hk0, hh]
        rfl
      · exact ⟨r', List.mem_cons_of_mem _ hr', hkr'⟩
    · rintro ⟨r', hr', hkr'⟩
      rcases List.mem_cons.mp hr' with h3 | h3
      · subst h3
        rw [hk0] at hkr'
        simp only [Except.toOption, Option.some.injEq] at hkr'
        exact Or.inl hkr'.symm
      · exact Or.inr ⟨r', h3, hkr'⟩

theorem keysList_count {rs : List Record} :
    ∀ {ks : List GroupKey}, keysList rs = Except.ok ks →
      ∀ k, ks.count k = (filterKey rs k).length := by
  induction rs with
  | nil =>
    intro ks h k
    unfold keysList at h
    injection h with h
    subst h
    simp [filterKey]
  | cons r rs ih =>
    intro ks h k
    obtain ⟨k0, ks', hk0, hks', hcons⟩ := keysList_ok_cons h
    subst hcons
    rw [filterKey_cons, List.count_cons, ih hks' k]
    by_cases hkk : k0 = k
    · subst hkk
      have hpred : (recordKey r).toOption = Option.some k0 := by rw [hk0]; rfl
      simp [hpred]
    · have hpred : ¬((recordKey r).toOption = Option.some k) := by
        rw [hk0]
        simp only [Except.toOption, Option.some.injEq]
        exact hkk
      simp [hpred, hkk]

/-! ### Rendering lemmas -/

theorem renderAll_ok_cons {fs : String → Bool} {e : GroupKey × List Record}
    {es : List (GroupKey × List Record)} {rows : List String}
    (h : renderAll fs (e :: es) = Except.ok rows) :
    ∃ row rest, renderEntry fs e = Except.ok row ∧ renderAll fs es = Except.ok rest ∧
      rows = row :: rest := by
  cases hr : renderEntry fs e with
  | ok row =>
    cases hrest : renderAll fs es with
    | ok rest =>
      refine ⟨row, rest, rfl, rfl, ?_⟩
      unfold renderAll at h
      rw [hr, hrest] at h
      simp only [bind, Except.bind, pure, Except.pure] at h
      injection h with h
      exact h.symm
    | error e' =>
      unfold renderAll at h
      rw [hr, hrest] at h
      simp only [bind, Except.bind] at h
      exact Except.noConfusion h
  | error e' =>
    unfold renderAll at h
    rw [hr] at h
    simp only [bind, Except.bind] at h
    exact Except.noConfusion h

theorem renderAll_ok_length {fs : String → Bool} :
    ∀ {es : List (GroupKey × List Record)} {rows : List String},
      renderAll fs es = Except.ok rows → rows.length = es.length := by
  intro es
  induction es with
  | nil =>
    intro rows h
    unfold renderAll at h
    injection h with h
    subst h
    rfl
  | cons e es ih =>
    intro rows h
    obtain ⟨row, rest, _, hrest, hcons⟩ := renderAll_ok_cons h
    subst hcons
    simp [ih hrest]

theorem groupCells_congr (fs : String → Bool) (n l : String) {rs1 rs2 : List Record}
    (hh : rs1.headD [] = rs2.headD []) (hl : rs1.length = rs2.length) :
    groupCells fs n l rs1 = groupCells fs n l rs2 := by
  unfold groupCells
  rw [hh, hl]

theorem renderEntry_congr (fs : String → Bool) {e1 e2 : GroupKey × List Record}
    (h : entrySummary e1 = entrySummary e2) : renderEntry fs e1 = renderEntry fs e2 := by
  have h1 : e1.1 = e2.1 := by
    have h' := congrArg (fun t : GroupKey × Record × Nat => t.1) h
    exact h'
  have h2 : e1.2.headD [] = e2.2.headD [] := by
    have h' := congrArg (fun t : GroupKey × Record × Nat => t.2.1) h
    exact h'
  have h3 : e1.2.length = e2.2.length := by
    have h' := congrArg (fun t : GroupKey × Record × Nat => t.2.2) h
    exact h'
  unfold renderEntry
  rw [show groupCells fs e1.1.1 e1.1.2 e1.2 = groupCells fs e2.1.1 e2.1.2 e2.2 from by
    rw [h1]
    exact groupCells_congr fs _ _ h2 h3]

theorem renderAll_congr (fs : String → Bool) :
    ∀ (l1 l2 : List (GroupKey × List Record)),
      l1.map entrySummary = l2.map entrySummary → renderAll fs l1 = renderAll fs l2 := by
  intro l1
  induction l1 with
  | nil =>
    intro l2 h
    cases l2 with
    | nil => rfl
    | cons e2 es2 => simp at h
  | cons e es ih =>
    intro l2 h
    cases l2 with
    | nil => simp at h
    | cons e2 es2 =>
      simp only [List.map_cons, List.cons.injEq] at h
      unfold renderAll
      rw [renderEntry_congr fs h.1, ih es2 h.2]

/-! ### Summary lemmas -/

theorem headD_append_ne {l : List Record} (h : l ≠ []) (r : Record) :
    (l ++ [r]).headD [] = l.headD [] := by
  cases l with
  | nil => exact absurd rfl h
  | cons a as => rfl

theorem summaryOf_cons (e : GroupKey × List Record) (gs : List (GroupKey × List Record)) :
    summaryOf (e :: gs) = entrySummary e :: summaryOf gs := rfl

theorem keysOf_summaryOf (gs : List (GroupKey × List Record)) :
    (summaryOf gs).map Prod.fst = keysOf gs := by
  unfold summaryOf keysOf
  rw [List.map_map]
  rfl

theorem summary_addToGroups_mem {gs : List (GroupKey × List Record)} {k : GroupKey} {r : Record}
    (hne : ∀ e ∈ gs, e.2 ≠ []) (hk : k ∈ keysOf gs) :
    summaryOf (addToGroups gs k r) = bumpFirst (summaryOf gs) k := by
  induction gs with
  | nil => simp [keysOf] at hk
  | cons e0 es ih =>
    obtain ⟨k0, rs0⟩ := e0
    unfold addToGroups
    by_cases h0 : k0 = k
    · subst h0
      rw [if_pos rfl, summaryOf_cons, summaryOf_cons]
      unfold bumpFirst
      rw [if_pos (show (entrySummary (k0, rs0)).1 = k0 from rfl)]
      have hne0 : rs0 ≠ [] := hne (k0, rs0) (List.mem_cons_self _ _)
      unfold entrySummary
      simp only [headD_append_ne hne0 r, List.length_append, List.length_singleton]
    · rw [if_neg h0, summaryOf_cons, summaryOf_cons]
      unfold bumpFirst
      rw [if_neg (show ¬((entrySummary (k0, rs0)).1 = k) from h0)]
      have hk' : k ∈ keysOf es := by
        simp only [keysOf, List.map_cons, List.mem_cons] at hk
        rcases hk with h1 | h1
        · exact absurd h1.symm h0
        · exact h1
      rw [ih (fun e he => hne e (List.mem_cons_of_mem _ he)) hk']

theorem summary_addToGroups_notmem {gs : List (GroupKey × List Record)} {k : GroupKey}
    {r : Record} (hk : k ∉ keysOf gs) :
    summaryOf (addToGroups gs k r) = summaryOf gs ++ [(k, (r, 1))] := by
  induction gs with
  | nil => rfl
  | cons e0 es ih =>
    obtain ⟨k0, rs0⟩ := e0
    unfold addToGroups
    have h0 : k0 ≠ k := by
      intro h1
      exact hk (by simp [keysOf, h1])
    rw [if_neg h0, summaryOf_cons, summaryOf_cons]
    have hk' : k ∉ keysOf es := by
      intro h1
      exact hk (by simp only [keysOf, List.map_cons, List.mem_cons]; exact Or.inr h1)
    rw [ih hk']
    rfl

theorem readGroupsFrom_summary_congr {rs : List Record} :
    ∀ {g1 g2 gs1 : List (GroupKey × List Record)}, summaryOf g1 = summaryOf g2 →
      (∀ e ∈ g1, e.2 ≠ []) → (∀ e ∈ g2, e.2 ≠ []) →
      readGroupsFrom g1 rs = Except.ok gs1 →
      ∃ gs2, readGroupsFrom g2 rs = Except.ok gs2 ∧ summaryOf gs1 = summaryOf gs2 := by
  induction rs with
  | nil =>
    intro g1 g2 gs1 hs h1 h2 h
    unfold readGroupsFrom at h
    injection h with h
    subst h
    exact ⟨g2, rfl, hs⟩
  | cons r rs ih =>
    intro g1 g2 gs1 hs h1 h2 h
    obtain ⟨k, hk, hrest⟩ := readGroupsFrom_ok_cons h
    have hkeys : keysOf g1 = keysOf g2 := by
      rw [← keysOf_summaryOf, ← keysOf_summaryOf, hs]
    by_cases hmem : k ∈ keysOf g1
    · have hadd : summaryOf (addToGroups g1 k r) = summaryOf (addToGroups g2 k r) := by
        rw [summary_addToGroups_mem h1 hmem, summary_addToGroups_mem h2 (hkeys ▸ hmem), hs]
      obtain ⟨gs2, hg2, hsum⟩ :=
        ih hadd (addToGroups_nonempty h1) (addToGroups_nonempty h2) hrest
      exact ⟨gs2, by rw [readGroupsFrom_cons_ok hk]; exact hg2, hsum⟩
    · have hadd : summaryOf (addToGroups g1 k r) = summaryOf (addToGroups g2 k r) := by
        rw [summary_addToGroups_notmem hmem, summary_addToGroups_notmem (hkeys ▸ hmem), hs]
      obtain ⟨gs2, hg2, hsum⟩ :=
        ih hadd (addToGroups_nonempty h1) (addToGroups_nonempty h2) hrest
      exact ⟨gs2, by rw [readGroupsFrom_cons_ok hk]; exact hg2, hsum⟩

/-! ### Sorting lemmas -/

theorem map_entrySummary_sortGroups (gs : List (GroupKey × List Record)) :
    (sortGroups gs).map entrySummary = (summaryOf gs).insertionSort sumLe := by
  unfold sortGroups summaryOf
  exact List.map_insertionSort entryLe sumLe entrySummary gs (fun a _ b _ => Iff.rfl)

theorem renderAll_sortGroups_summary {fs : String → Bool}
    {gs1 gs2 : List (GroupKey × List Record)} (h : summaryOf gs1 = summaryOf gs2) :
    renderAll fs (sortGroups gs1) = renderAll fs (sortGroups gs2) := by
  apply renderAll_congr
  rw [map_entrySummary_sortGroups, map_entrySummary_sortGroups, h]

theorem sorted_sortGroups (gs : List (GroupKey × List Record)) :
    List.Sorted entryLe (sortGroups gs) :=
  List.sorted_insertionSort entryLe gs

theorem perm_sortGroups (gs : List (GroupKey × List Record)) : List.Perm (sortGroups gs) gs :=
  List.perm_insertionSort entryLe gs

theorem nodup_keysOf_sortGroups {gs : List (GroupKey × List Record)}
    (h : (keysOf gs).Nodup) : (keysOf (sortGroups gs)).Nodup := by
  have hp : List.Perm ((sortGroups gs).map Prod.fst) (gs.map Prod.fst) :=
    (perm_sortGroups gs).map Prod.fst
  exact hp.nodup_iff.mpr h

theorem pairwise_entryLt_sortGroups {gs : List (GroupKey × List Record)}
    (h : (keysOf gs).Nodup) : List.Pairwise entryLt (sortGroups gs) := by
  have hs : List.Pairwise entryLe (sortGroups gs) := sorted_sortGroups gs
  have hne : List.Pairwise (fun a b : GroupKey × List Record => a.1 ≠ b.1) (sortGroups gs) := by
    have hnd := nodup_keysOf_sortGroups h
    exact List.pairwise_map.mp hnd
  exact (hs.and hne).imp (fun hab => keyLe_ne_keyLt hab.1 hab.2)

theorem sortGroups_perm_eq {gs1 gs2 : List (GroupKey × List Record)} (hp : List.Perm gs1 gs2)
    (h1 : (keysOf gs1).Nodup) : sortGroups gs1 = sortGroups gs2 := by
  have h2 : (keysOf gs2).Nodup := (hp.map Prod.fst).nodup_iff.mp h1
  have hperm : List.Perm (sortGroups gs1) (sortGroups gs2) :=
    ((perm_sortGroups gs1).trans hp).trans (perm_sortGroups gs2).symm
  exact List.eq_of_perm_of_sorted hperm (pairwise_entryLt_sortGroups h1)
    (pairwise_entryLt_sortGroups h2)

/-! ### Pipeline inversion lemmas -/

theorem buildRowList_ok_inv {fs : String → Bool} {rs : List Record} {rows : List String}
    (h : buildRowList fs rs = Except.ok rows) :
    ∃ gs, readGroups rs = Except.ok gs ∧ renderAll fs (sortGroups gs) = Except.ok rows := by
  unfold buildRowList at h
  cases hg : readGroups rs with
  | ok gs =>
    rw [hg] at h
    simp only [bind, Except.bind] at h
    exact ⟨gs, rfl, h⟩
  | error e =>
    rw [hg] at h
    simp only [bind, Except.bind] at h
    exact Except.noConfusion h

theorem build_rows_ok_inv {fs : String → Bool} {rs : List Record} {out : String}
    (h : build_rows fs rs = Except.ok out) :
    ∃ gs rows, readGroups rs = Except.ok gs ∧ renderAll fs (sortGroups gs) = Except.ok rows ∧
      out = "\n".intercalate rows := by
  unfold build_rows at h
  cases hb : buildRowList fs rs with
  | ok rows =>
    rw [hb] at h
    simp only [bind, Except.bind, pure, Except.pure] at h
    obtain ⟨gs, h1, h2⟩ := buildRowList_ok_inv hb
    injection h with h
    exact ⟨gs, rows, h1, h2, h.symm⟩
  | error e =>
    rw [hb] at h
    simp only [bind, Except.bind] at h
    exact Except.noConfusion h

theorem build_rows_eq {fs : String → Bool} {rs : List Record}
    {gs : List (GroupKey × List Record)} {rows : List String}
    (hg : readGroups rs = Except.ok gs) (hr : renderAll fs (sortGroups gs) = Except.ok rows) :
    build_rows fs rs = Except.ok ("\n".intercalate rows) := by
  unfold build_rows buildRowList
  rw [hg]
  simp only [bind, Except.bind]
  rw [hr]
  rfl

theorem readGroupsFrom_append_of {xs ys : List Record} :
    ∀ {g g' gs : List (GroupKey × List Record)}, readGroupsFrom g xs = Except.ok g' →
      readGroupsFrom g' ys = Except.ok gs → readGroupsFrom g (xs ++ ys) = Except.ok gs := by
  induction xs with
  | nil =>
    intro g g' gs h1 h2
    unfold readGroupsFrom at h1
    injection h1 with h1
    subst h1
    exact h2
  | cons r xs ih =>
    intro g g' gs h1 h2
    obtain ⟨k, hk, hrest⟩ := readGroupsFrom_ok_cons h1
    rw [List.cons_append, readGroupsFrom_cons_ok hk]
    exact ih hrest h2

theorem readGroupsFrom_append_inv {xs ys : List Record} :
    ∀ {g gs : List (GroupKey × List Record)}, readGroupsFrom g (xs ++ ys) = Except.ok gs →
      ∃ g', readGroupsFrom g xs = Except.ok g' ∧ readGroupsFrom g' ys = Except.ok gs := by
  induction xs with
  | nil =>
    intro g gs h
    exact ⟨g, rfl, h⟩
  | cons r xs ih =>
    intro g gs h
    rw [List.cons_append] at h
    obtain ⟨k, hk, hrest⟩ := readGroupsFrom_ok_cons h
    obtain ⟨g', hg', hys⟩ := ih hrest
    exact ⟨g', by rw [readGroupsFrom_cons_ok hk]; exact hg', hys⟩

/-! ### Cell-level lemmas -/

theorem groupCells_ok_inv {fs : String → Bool} {n l : String} {rs : List Record} {c : RowCells}
    (h : groupCells fs n l rs = Except.ok c) :
    ∃ tu, dictGet (rs.headD []) "Thumbnail" (PyVal.str "") = PyVal.str tu ∧
      c = RowCells.mk
        (if pyUnquote tu ≠ "" ∧ fs (pyUnquote tu) then imgHtml (pyUnquote tu) else "N/A")
        ("<a href=\"" ++ safe_html (orDefault l "#") ++ "\" target=\"_blank\">" ++
          safe_html (orDefault n "N/A") ++ titleSuffix rs.length ++ "</a>" ++
          detailsHtml (safe_html (pyOrEmpty (dictGet (rs.headD []) "Description"
            (PyVal.str "")))))
        (safe_html (pyOrEmpty (dictGet (rs.headD []) "Author" (PyVal.str ""))))
        (make_chips (dictGet (rs.headD []) "Category" (PyVal.str "")))
        (make_chips (dictGet (rs.headD []) "Genre" (PyVal.str "")))
        (make_chips (dictGet (rs.headD []) "Tags" (PyVal.str "")))
        (safe_text (dictGet (rs.headD []) "Price" (PyVal.str ""))) := by
  cases hthumb : dictGet (rs.headD []) "Thumbnail" (PyVal.str "") with
  | str tu =>
    refine ⟨tu, rfl, ?_⟩
    simp only [groupCells] at h
    rw [hthumb] at h
    simp only [bind, Except.bind, pure, Except.pure] at h
    injection h with h
    exact h.symm
  | none =>
    simp only [groupCells] at h
    rw [hthumb] at h
    simp only [bind, Except.bind] at h
    exact Except.noConfusion h

theorem imgHtml_ne_empty (u : String) : imgHtml u ≠ "" := by
  unfold imgHtml
  repeat apply append_ne_empty_left
  decide

theorem titleCell_ne_empty (x y z w : String) :
    "<a href=\"" ++ x ++ "\" target=\"_blank\">" ++ y ++ z ++ "</a>" ++ w ≠ "" := by
  repeat apply append_ne_empty_left
  decide

theorem detailsHtml_eq_empty_iff (d : String) : detailsHtml d = "" ↔ d = "N/A" := by
  unfold detailsHtml
  constructor
  · intro h
    by_contra hne
    rw [if_pos hne] at h
    revert h
    repeat apply append_ne_empty_left
    decide
  · intro h
    rw [if_neg (by simpa using h)]

/-! ### Claim theorems -/

/-- C1 (counterexample): the claim says every field value containing `<`,
`&` or `\"` is HTML-escaped wherever it appears, in particular in the
Price cell rendered via `safe_text` and in the Thumbnail value
interpolated into the img src attributes.  On a record whose Price
field is `<b>$1</b>`, the rendered price cell is exactly that raw
string — the `<` is emitted unescaped — and on a record whose existing
Thumbnail is the file name `x\".png`, the rendered cover cell carries
the raw `\"` inside the src attributes and contains no `&quot;`
anywhere, so the quote was not escaped either. -/
theorem C1_price_counterexample :
    (Except.map RowCells.price (groupCells (fun _ => false) "G" "L"
      [[("Game Name", PyVal.str "G"), ("Game Page Link", PyVal.str "L"),
        ("Price", PyVal.str "<b>$1</b>")]]) = Except.ok "<b>$1</b>"
    ∧ '<' ∈ "<b>$1</b>".data)
    ∧ (Except.map RowCells.img (groupCells (fun _ => true) "G" "L"
      [[("Game Name", PyVal.str "G"), ("Game Page Link", PyVal.str "L"),
        ("Thumbnail", PyVal.str "x\".png")]]) =
      Except.ok ("<div class=\"thumb-wrapper\">" ++ "<img class=\"thumb\" src=\"" ++
        "x\".png" ++ "\">" ++ "<img class=\"zoomed\" src=\"" ++ "x\".png" ++ "\">" ++ "</div>")
    ∧ '"' ∈ "x\".png".data
    ∧ containsSub ("<div class=\"thumb-wrapper\">" ++ "<img class=\"thumb\" src=\"" ++
        "x\".png" ++ "\">" ++ "<img class=\"zoomed\" src=\"" ++ "x\".png" ++ "\">" ++ "</div>")
        "&quot;" = false) :=
  ⟨⟨rfl, by decide⟩, rfl, by decide, by decide⟩

/-- C1 (amended): values rendered through `safe_html` (title, link,
description, author, chip labels) are escaped — the escaped text never
contains a raw `<`, `>`, `\"` or `'` — but the Price cell is
`safe_text` of the Price field, i.e. the trimmed raw value with no
escaping, the Author cell is exactly the escaped Author field, and
whenever a thumbnail is rendered, the cover cell is the literal img
markup with the percent-decoded Thumbnail value spliced verbatim into
both src attributes, no escaping applied. -/
theorem C1_escaping :
    (∀ s : String, ∀ c ∈ (safe_html s).data, c ≠ '<' ∧ c ≠ '>' ∧ c ≠ '"' ∧ c ≠ '\'') ∧
    (∀ s : String, pyStrip s ≠ "" → safe_text (PyVal.str s) = pyStrip s) ∧
    (∀ (fs : String → Bool) (n l : String) (rs : List Record) (c : RowCells),
      groupCells fs n l rs = Except.ok c →
        c.price = safe_text (dictGet (rs.headD []) "Price" (PyVal.str "")) ∧
        c.author = safe_html (pyOrEmpty (dictGet (rs.headD []) "Author" (PyVal.str "")))) ∧
    (∀ (fs : String → Bool) (n l : String) (rs : List Record) (c : RowCells) (tu : String),
      groupCells fs n l rs = Except.ok c →
      dictGet (rs.headD []) "Thumbnail" (PyVal.str "") = PyVal.str tu →
      pyUnquote tu ≠ "" → fs (pyUnquote tu) = true →
        c.img = "<div class=\"thumb-wrapper\">" ++ "<img class=\"thumb\" src=\"" ++
          pyUnquote tu ++ "\">" ++ "<img class=\"zoomed\" src=\"" ++ pyUnquote tu ++
          "\">" ++ "</div>") := by
  refine ⟨htmlEscape_no_specials, ?_, ?_, ?_⟩
  · intro s hs
    simp [safe_text, pyOrEmpty, hs]
  · intro fs n l rs c h
    obtain ⟨tu, _, hc⟩ := groupCells_ok_inv h
    subst hc
    exact ⟨rfl, rfl⟩
  · intro fs n l rs c tu h htu hne hfs
    obtain ⟨tu', htu', hc⟩ := groupCells_ok_inv h
    rw [htu] at htu'
    injection htu' with htu'
    subst htu'
    subst hc
    show (if pyUnquote tu ≠ "" ∧ fs (pyUnquote tu) then imgHtml (pyUnquote tu) else "N/A") = _
    rw [if_pos ⟨hne, hfs⟩]
    rfl

/-- Witness for C1_escaping at a concrete input: an existing thumbnail
file name flows verbatim into the img markup. -/
theorem C1_escaping_witness :
    ((groupCells (fun _ => true) "G" "L"
      [[("Thumbnail", PyVal.str "t.png")]]).toOption.getD
        (RowCells.mk "" "" "" "" "" "" "")).img =
      "<div class=\"thumb-wrapper\">" ++ "<img class=\"thumb\" src=\"" ++
        pyUnquote "t.png" ++ "\">" ++ "<img class=\"zoomed\" src=\"" ++
        pyUnquote "t.png" ++ "\">" ++ "</div>" :=
  C1_escaping.2.2.2 (fun _ => true) "G" "L" [[("Thumbnail", PyVal.str "t.png")]]
    ((groupCells (fun _ => true) "G" "L"
      [[("Thumbnail", PyVal.str "t.png")]]).toOption.getD
        (RowCells.mk "" "" "" "" "" "" "")) "t.png"
    (by rfl) (by rfl) (by decide) (by rfl)

/-- C2: the spec says a missing field resolves to the empty string and
the renderer never fails on dirty input.  But `csv.DictReader` pads a
data row that is shorter than the header with `None`, and the group-key
computation `record.get(\"Game Name\", \"\").strip()` then raises
`AttributeError` — the program crashes.  (A column missing from the
header entirely does default to the empty string, third conjunct.) -/
theorem C2_short_row_crash :
    recordKey (dictReaderRecord ["Game Name", "Game Page Link"] ["Foo"]) =
      Except.error "AttributeError: NoneType object has no attribute strip" ∧
    build_rows (fun _ => false) [dictReaderRecord ["Game Name", "Game Page Link"] ["Foo"]] =
      Except.error "AttributeError: NoneType object has no attribute strip" ∧
    recordKey [] = Except.ok ("", "") :=
  ⟨rfl, rfl, rfl⟩

/-- C3 (counterexample): the claim says the disclosure element appears
iff the escaped description is non-empty and is omitted when it is
empty.  On a record with no Description field the escaped description
is the empty string, yet the rendered title cell still contains a
`<details>` element, because the code's condition is
`description != \"N/A\"`, not non-emptiness. -/
theorem C3_details_counterexample :
    safe_html (pyOrEmpty (dictGet [("Game Name", PyVal.str "G"),
        ("Game Page Link", PyVal.str "L")] "Description" (PyVal.str ""))) = "" ∧
    Except.map (fun c => containsSub c.title_cell "<details")
      (groupCells (fun _ => false) "G" "L"
        [[("Game Name", PyVal.str "G"), ("Game Page Link", PyVal.str "L")]]) =
      Except.ok true :=
  ⟨rfl, rfl⟩

/-- C3 (amended): the title cell carries the `detailsHtml` fragment of
the escaped description, and that fragment is empty exactly when the
escaped description equals the literal string `N/A` — not when it is
empty. -/
theorem C3_details :
    (∀ d : String, detailsHtml d = "" ↔ d = "N/A") ∧
    (∀ (fs : String → Bool) (n l : String) (rs : List Record) (c : RowCells),
      groupCells fs n l rs = Except.ok c →
        c.title_cell = "<a href=\"" ++ safe_html (orDefault l "#") ++ "\" target=\"_blank\">" ++
          safe_html (orDefault n "N/A") ++ titleSuffix rs.length ++ "</a>" ++
          detailsHtml (safe_html (pyOrEmpty (dictGet (rs.headD []) "Description"
            (PyVal.str ""))))) := by
  refine ⟨detailsHtml_eq_empty_iff, ?_⟩
  intro fs n l rs c h
  obtain ⟨tu, _, hc⟩ := groupCells_ok_inv h
  subst hc
  rfl

/-- Witness for C3_details at a concrete input. -/
theorem C3_details_witness :
    ((groupCells (fun _ => false) "G" "L" [[("Game Name", PyVal.str "G"),
        ("Game Page Link", PyVal.str "L")]]).toOption.getD
      (RowCells.mk "" "" "" "" "" "" "")).title_cell =
      "<a href=\"" ++ safe_html (orDefault "L" "#") ++ "\" target=\"_blank\">" ++
        safe_html (orDefault "G" "N/A") ++ titleSuffix 1 ++ "</a>" ++
        detailsHtml (safe_html (pyOrEmpty (dictGet
          (([[("Game Name", PyVal.str "G"), ("Game Page Link", PyVal.str "L")]] :
            List Record).headD []) "Description" (PyVal.str "")))) :=
  C3_details.2 (fun _ => false) "G" "L"
    [[("Game Name", PyVal.str "G"), ("Game Page Link", PyVal.str "L")]]
    ((groupCells (fun _ => false) "G" "L" [[("Game Name", PyVal.str "G"),
      ("Game Page Link", PyVal.str "L")]]).toOption.getD (RowCells.mk "" "" "" "" "" "" ""))
    (by rfl)

/-- C8: a Tags/Category/Genre cell whose field is empty or holds only
whitespace and commas renders the literal `N/A`; the field
`Action, Puzzle` renders exactly two chips labelled `Action` and
`Puzzle`; and the three chip cells are exactly `make_chips` of the
representative's fields. -/
theorem C8_chips :
    (∀ s : String, (∀ c ∈ s.data, pyIsSpace c ∨ c = ',') → make_chips (PyVal.str s) = "N/A") ∧
    make_chips (PyVal.str "Action, Puzzle") =
      "<a href=\"#\" class=\"filter-chip\">Action</a> <a href=\"#\" class=\"filter-chip\">Puzzle</a>" ∧
    (∀ (fs : String → Bool) (n l : String) (rs : List Record) (c : RowCells),
      groupCells fs n l rs = Except.ok c →
        c.category = make_chips (dictGet (rs.headD []) "Category" (PyVal.str "")) ∧
        c.genre = make_chips (dictGet (rs.headD []) "Genre" (PyVal.str "")) ∧
        c.tags = make_chips (dictGet (rs.headD []) "Tags" (PyVal.str ""))) := by
  refine ⟨fun s hs => make_chips_space_comma hs, by decide, ?_⟩
  intro fs n l rs c h
  obtain ⟨tu, _, hc⟩ := groupCells_ok_inv h
  subst hc
  exact ⟨rfl, rfl, rfl⟩

/-- Witness for C8_chips at a concrete input. -/
theorem C8_chips_witness : make_chips (PyVal.str " ,, , ") = "N/A" :=
  C8_chips.1 " ,, , " (by decide)

/-- C10: in every rendered row, the Cover, Title, Category, Genre, Tags
and Price cells are non-empty — `safe_text` and `make_chips` never
return the empty string and the cover branch falls back to `N/A` —
while the Author cell can be the empty string (last conjunct, a record
with no Author field). -/
theorem C10_cells_nonempty :
    (∀ (fs : String → Bool) (n l : String) (rs : List Record) (c : RowCells),
      groupCells fs n l rs = Except.ok c →
        c.img ≠ "" ∧ c.title_cell ≠ "" ∧ c.category ≠ "" ∧ c.genre ≠ "" ∧
        c.tags ≠ "" ∧ c.price ≠ "") ∧
    (∀ v, safe_text v ≠ "") ∧ (∀ v, make_chips v ≠ "") ∧
    Except.map RowCells.author (groupCells (fun _ => false) "G" "L"
      [[("Game Name", PyVal.str "G")]]) = Except.ok "" := by
  refine ⟨?_, safe_text_ne_empty, make_chips_ne_empty, rfl⟩
  intro fs n l rs c h
  obtain ⟨tu, _, hc⟩ := groupCells_ok_inv h
  subst hc
  refine ⟨?_, titleCell_ne_empty _ _ _ _, make_chips_ne_empty _, make_chips_ne_empty _,
    make_chips_ne_empty _, safe_text_ne_empty _⟩
  by_cases himg : pyUnquote tu ≠ "" ∧ fs (pyUnquote tu)
  · show (if pyUnquote tu ≠ "" ∧ fs (pyUnquote tu) then imgHtml (pyUnquote tu) else "N/A") ≠ ""
    rw [if_pos himg]
    exact imgHtml_ne_empty _
  · show (if pyUnquote tu ≠ "" ∧ fs (pyUnquote tu) then imgHtml (pyUnquote tu) else "N/A") ≠ ""
    rw [if_neg himg]
    decide

/-- Witness for C10_cells_nonempty at a concrete input. -/
theorem C10_cells_witness :
    ((groupCells (fun _ => false) "G" "L" [[("Game Name", PyVal.str "G")]]).toOption.getD
      (RowCells.mk "" "" "" "" "" "" "")).price ≠ "" :=
  (C10_cells_nonempty.1 (fun _ => false) "G" "L" [[("Game Name", PyVal.str "G")]]
    ((groupCells (fun _ => false) "G" "L" [[("Game Name", PyVal.str "G")]]).toOption.getD
      (RowCells.mk "" "" "" "" "" "" "")) (by rfl)).2.2.2.2.2

/-- C6: the whole document is computed before the single write: if
reading/parsing the input raises, or rendering raises on dirty data,
the output sink is left unchanged; on success the sink holds exactly
header + rows + footer.  No partial output is ever produced. -/
theorem C6_atomic_write :
    ∀ (fs : String → Bool) (input : Except String (List Record)) (sink : Option String),
      (∀ e, input = Except.error e → runSink fs input sink = sink) ∧
      (∀ rs e, input = Except.ok rs → build_rows fs rs = Except.error e →
        runSink fs input sink = sink) ∧
      (∀ rs body, input = Except.ok rs → build_rows fs rs = Except.ok body →
        runSink fs input sink = Option.some (HTML_HEADER ++ body ++ HTML_FOOTER)) := by
  intro fs input sink
  refine ⟨?_, ?_, ?_⟩
  · intro e he
    subst he
    rfl
  · intro rs e hin hb
    subst hin
    unfold runSink mainRun
    simp only [bind, Except.bind]
    rw [hb]
  · intro rs body hin hb
    subst hin
    unfold runSink mainRun
    simp only [bind, Except.bind]
    rw [hb]

/-- Witness for C6_atomic_write at a concrete input. -/
theorem C6_atomic_witness :
    runSink (fun _ => false) (Except.error "InputError") (Option.some "old") =
      Option.some "old" :=
  (C6_atomic_write (fun _ => false) (Except.error "InputError") (Option.some "old")).1
    "InputError" rfl

/-- C9: the pipeline is deterministic: `mainRun` is a pure function of
the parsed input and the thumbnail filesystem state, and the one
internal ordering artefact — the insertion order of the grouping dict —
cannot affect the output, because sorting any permutation of the group
entries (dict keys are distinct) yields the same sequence. -/
theorem C9_deterministic :
    (∀ (fs1 fs2 : String → Bool) (in1 in2 : Except String (List Record)),
      fs1 = fs2 → in1 = in2 → mainRun fs1 in1 = mainRun fs2 in2) ∧
    (∀ (fs : String → Bool) (gs1 gs2 : List (GroupKey × List Record)),
      List.Perm gs1 gs2 → (keysOf gs1).Nodup →
      renderAll fs (sortGroups gs1) = renderAll fs (sortGroups gs2)) := by
  constructor
  · intro fs1 fs2 in1 in2 h1 h2
    rw [h1, h2]
  · intro fs gs1 gs2 hp hnd
    rw [sortGroups_perm_eq hp hnd]

/-- Witness for C9_deterministic at a concrete input. -/
theorem C9_deterministic_witness :
    renderAll (fun _ => false) (sortGroups [(("a", "l"), [[]]), (("b", "m"), [[]])]) =
      renderAll (fun _ => false) (sortGroups [(("b", "m"), [[]]), (("a", "l"), [[]])]) :=
  C9_deterministic.2 (fun _ => false) [(("a", "l"), [[]]), (("b", "m"), [[]])]
    [(("b", "m"), [[]]), (("a", "l"), [[]])] (List.Perm.swap _ _ _) (by decide)

/-- C4: the number of rendered rows equals the number of distinct
trimmed (name, link) pairs; each group's record count is the exact
multiplicity of its key among the input records; and the title suffix
is `\" (n)\"` when the count n exceeds 1 and empty when it is 1. -/
theorem C4_row_counts :
    ∀ (fs : String → Bool) (rs : List Record) (gs : List (GroupKey × List Record))
      (ks : List GroupKey) (rows : List String),
      readGroups rs = Except.ok gs → keysList rs = Except.ok ks →
      buildRowList fs rs = Except.ok rows →
      rows.length = ks.dedup.length ∧
      (∀ e ∈ gs, e.2.length = ks.count e.1) ∧
      (∀ m : Nat, 1 < m → titleSuffix m = " (" ++ Nat.repr m ++ ")") ∧
      titleSuffix 1 = "" := by
  intro fs rs gs ks rows hg hk hb
  have hnd : (keysOf gs).Nodup := readGroupsFrom_nodup (show (keysOf ([] : List (GroupKey × List Record))).Nodup from List.nodup_nil) hg
  refine ⟨?_, ?_, ?_, rfl⟩
  · obtain ⟨gs2, hg2, hr2⟩ := buildRowList_ok_inv hb
    have hgs : gs2 = gs := by
      rw [hg] at hg2
      injection hg2 with h
      exact h.symm
    subst hgs
    have hlen1 : rows.length = (sortGroups gs2).length := renderAll_ok_length hr2
    have hlen2 : (sortGroups gs2).length = gs2.length := (perm_sortGroups gs2).length_eq
    have hlen3 : gs2.length = (keysOf gs2).length := (List.length_map gs2 Prod.fst).symm
    have hmem : ∀ k, k ∈ keysOf gs2 ↔ k ∈ ks.dedup := by
      intro k
      rw [List.mem_dedup, readGroupsFrom_mem_keys hg k, keysList_mem hk k]
      simp [keysOf]
    have hperm : List.Perm (keysOf gs2) ks.dedup :=
      (List.perm_ext_iff_of_nodup hnd (List.nodup_dedup ks)).mpr hmem
    rw [hlen1, hlen2, hlen3, hperm.length_eq]
  · intro e he
    have hfind : findGroup gs e.1 = filterKey rs e.1 := by
      have h1 := readGroupsFrom_find hg e.1
      simpa [findGroup] using h1
    rw [← findGroup_of_mem hnd he, hfind, keysList_count hk]
  · intro m hm
    unfold titleSuffix
    rw [if_pos hm]

/-- Witness for C4_row_counts at a concrete input: three records, two
sharing a key, render two rows. -/
theorem C4_row_counts_witness :
    ((buildRowList (fun _ => false) [[("Game Name", PyVal.str "x")],
      [("Game Name", PyVal.str "x")], [("Game Name", PyVal.str "y")]]).toOption.getD []).length =
      ((keysList [[("Game Name", PyVal.str "x")], [("Game Name", PyVal.str "x")],
        [("Game Name", PyVal.str "y")]]).toOption.getD []).dedup.length :=
  (C4_row_counts (fun _ => false)
    [[("Game Name", PyVal.str "x")], [("Game Name", PyVal.str "x")],
      [("Game Name", PyVal.str "y")]]
    ((readGroups [[("Game Name", PyVal.str "x")], [("Game Name", PyVal.str "x")],
      [("Game Name", PyVal.str "y")]]).toOption.getD [])
    ((keysList [[("Game Name", PyVal.str "x")], [("Game Name", PyVal.str "x")],
      [("Game Name", PyVal.str "y")]]).toOption.getD [])
    ((buildRowList (fun _ => false) [[("Game Name", PyVal.str "x")],
      [("Game Name", PyVal.str "x")], [("Game Name", PyVal.str "y")]]).toOption.getD [])
    (by rfl) (by rfl) (by rfl)).1

/-- C5: the groups are rendered in strictly ascending lexicographic
order of the trimmed (name, link) key — compare names first, then
links, by code-point string order — and the sorted key sequence does
not depend on the order of the input records. -/
theorem C5_sorted_order :
    ∀ (rs : List Record) (gs : List (GroupKey × List Record)),
      readGroups rs = Except.ok gs →
      List.Pairwise entryLt (sortGroups gs) ∧
      (∀ (rs' : List Record) (gs' : List (GroupKey × List Record)),
        List.Perm rs' rs → readGroups rs' = Except.ok gs' →
        (sortGroups gs').map Prod.fst = (sortGroups gs).map Prod.fst) := by
  intro rs gs hg
  have hnd : (keysOf gs).Nodup := readGroupsFrom_nodup (show (keysOf ([] : List (GroupKey × List Record))).Nodup from List.nodup_nil) hg
  refine ⟨pairwise_entryLt_sortGroups hnd, ?_⟩
  intro rs' gs' hp hg'
  have hnd' : (keysOf gs').Nodup := readGroupsFrom_nodup (show (keysOf ([] : List (GroupKey × List Record))).Nodup from List.nodup_nil) hg'
  have hmem : ∀ k, k ∈ keysOf gs' ↔ k ∈ keysOf gs := by
    intro k
    rw [readGroupsFrom_mem_keys hg' k, readGroupsFrom_mem_keys hg k]
    simp only [keysOf, List.map_nil, List.not_mem_nil, false_or]
    constructor
    · rintro ⟨r, hr, hkr⟩
      exact ⟨r, hp.mem_iff.mp hr, hkr⟩
    · rintro ⟨r, hr, hkr⟩
      exact ⟨r, hp.mem_iff.mpr hr, hkr⟩
  have hkperm : List.Perm (keysOf gs') (keysOf gs) :=
    (List.perm_ext_iff_of_nodup hnd' hnd).mpr hmem
  have hs1 : List.Pairwise keyLt ((sortGroups gs').map Prod.fst) :=
    List.pairwise_map.mpr (pairwise_entryLt_sortGroups hnd')
  have hs2 : List.Pairwise keyLt ((sortGroups gs).map Prod.fst) :=
    List.pairwise_map.mpr (pairwise_entryLt_sortGroups hnd)
  have hperm : List.Perm ((sortGroups gs').map Prod.fst) ((sortGroups gs).map Prod.fst) :=
    ((perm_sortGroups gs').map Prod.fst).trans
      (hkperm.trans ((perm_sortGroups gs).map Prod.fst).symm)
  exact List.eq_of_perm_of_sorted hperm hs1 hs2

/-- Witness for C5_sorted_order at a concrete input given in descending
order. -/
theorem C5_sorted_witness :
    List.Pairwise entryLt (sortGroups ((readGroups [[("Game Name", PyVal.str "b")],
      [("Game Name", PyVal.str "a")]]).toOption.getD [])) :=
  (C5_sorted_order [[("Game Name", PyVal.str "b")], [("Game Name", PyVal.str "a")]]
    ((readGroups [[("Game Name", PyVal.str "b")],
      [("Game Name", PyVal.str "a")]]).toOption.getD []) (by rfl)).1

/-- C7: a rendered row depends only on the group key, the representative
(first-seen) record and the record count: replacing a later duplicate
record by any record with the same group key leaves the whole rendered
output unchanged (two-run equality). -/
theorem C7_representative_only :
    (∀ (fs : String → Bool) (n l : String) (rs1 rs2 : List Record),
      rs1.headD [] = rs2.headD [] → rs1.length = rs2.length →
      groupCells fs n l rs1 = groupCells fs n l rs2) ∧
    (∀ (fs : String → Bool) (a b : List Record) (r r' : Record) (k : GroupKey) (out : String),
      recordKey r = Except.ok k → recordKey r' = Except.ok k →
      (∃ x ∈ a, (recordKey x).toOption = Option.some k) →
      build_rows fs (a ++ r :: b) = Except.ok out →
      build_rows fs (a ++ r' :: b) = Except.ok out) := by
  refine ⟨fun fs n l rs1 rs2 hh hl => groupCells_congr fs n l hh hl, ?_⟩
  intro fs a b r r' k out hk hk' hdup hrun
  obtain ⟨gs1, rows, hg1, hr1, hout⟩ := build_rows_ok_inv hrun
  obtain ⟨ga, hga, hrest⟩ := readGroupsFrom_append_inv hg1
  obtain ⟨k2, hk2, hrest2⟩ := readGroupsFrom_ok_cons hrest
  rw [hk] at hk2
  injection hk2 with hk2
  subst hk2
  have hne : ∀ e ∈ ga, e.2 ≠ [] :=
    readGroupsFrom_nonempty (fun e he => absurd he (List.not_mem_nil e)) hga
  have hmem : k ∈ keysOf ga := by
    rw [readGroupsFrom_mem_keys hga k]
    exact Or.inr hdup
  have hsum : summaryOf (addToGroups ga k r) = summaryOf (addToGroups ga k r') := by
    rw [summary_addToGroups_mem hne hmem, summary_addToGroups_mem hne hmem]
  obtain ⟨gs2, hgs2, hsum2⟩ := readGroupsFrom_summary_congr hsum
    (addToGroups_nonempty hne) (addToGroups_nonempty hne) hrest2
  have hg2 : readGroups (a ++ r' :: b) = Except.ok gs2 :=
    readGroupsFrom_append_of hga (by rw [readGroupsFrom_cons_ok hk']; exact hgs2)
  have hr2 : renderAll fs (sortGroups gs2) = Except.ok rows :=
    (renderAll_sortGroups_summary hsum2).symm.trans hr1
  rw [hout]
  exact build_rows_eq hg2 hr2

/-- Witness for C7_representative_only at a concrete input: the second
record of a two-record group changes its Author field without changing
the output. -/
theorem C7_representative_witness :
    build_rows (fun _ => false)
      ([[("Game Name", PyVal.str "x")]] ++
        [("Game Name", PyVal.str "x"), ("Author", PyVal.str "B")] :: []) =
      Except.ok ((build_rows (fun _ => false)
        ([[("Game Name", PyVal.str "x")]] ++
          [("Game Name", PyVal.str "x"), ("Author", PyVal.str "A")] :: [])).toOption.getD "") :=
  C7_representative_only.2 (fun _ => false) [[("Game Name", PyVal.str "x")]] []
    [("Game Name", PyVal.str "x"), ("Author", PyVal.str "A")]
    [("Game Name", PyVal.str "x"), ("Author", PyVal.str "B")]
    ("x", "")
    ((build_rows (fun _ => false)
      ([[("Game Name", PyVal.str "x")]] ++
        [("Game Name", PyVal.str "x"), ("Author", PyVal.str "A")] :: [])).toOption.getD "")
    (by rfl) (by rfl)
    ⟨[("Game Name", PyVal.str "x")], List.mem_cons_self _ _, by rfl⟩
    (by rfl)
